import Mathlib

/-!
Verification of the SmartHomeEnergy repository: a Home Assistant
integration that plans and executes time-shifted battery
charging/discharging from a day's hourly electricity prices.

The repository ships the dashboard card
(custom_components/smarthomeenergy/www/smarthomeenergy-card.js) and
documentation; the Planner and PlanExecutor are described in the design
document but their source is not part of the repository, so they are
modelled here from the design document, while the card is embedded from
its JavaScript source.
-/

namespace SmartHomeEnergy

/-- Modelled from the spec: PriceSeries is an hour-indexed sequence of
hourly prices for the target day; a missing hour is either absent from
the sequence or marked unknown (the sentinel is `none`). -/
abbrev PriceSeries := List (Option ℚ)

/-- Modelled from the spec: BatteryModel holds the static physical and
operational constraints of the storage device. -/
structure BatteryModel where
  capacityKWh : ℚ
  chargePowerW : ℚ
  maxDischargePowerW : ℚ
  roundTripEfficiencyPct : ℚ
  minSocPct : ℚ
  maxSocPct : ℚ
  chargeHoursTarget : ℕ
  dischargeHoursTarget : ℕ
deriving DecidableEq

/-- Modelled from the spec: the action planned for one hour. -/
inductive PlanAction where
  | charge
  | discharge
  | idle
deriving DecidableEq

/-- Modelled from the spec: one HourlyAction entry of a Plan. -/
structure HourlyAction where
  hour : ℕ
  action : PlanAction
deriving DecidableEq

/-- Modelled from the spec: a Plan is the immutable 24-hour schedule
with its derived fields. -/
structure Plan where
  actions : List HourlyAction
  chargeHours : List ℕ
  dischargeHours : List ℕ
  expectedBenefit : ℚ
deriving DecidableEq

/-- Modelled from the spec: the error taxonomy of the design document. -/
inductive PlannerError where
  | insufficientData
  | constraintViolation
  | actuatorCommand
deriving DecidableEq

/-- Rational addition written through mkRat so that it evaluates inside
the kernel; proved equal to ordinary rational addition below. -/
def qadd (a b : ℚ) : ℚ := mkRat (a.num * b.den + b.num * a.den) (a.den * b.den)

/-- Rational subtraction written through mkRat; proved equal to ordinary
rational subtraction below. -/
def qsub (a b : ℚ) : ℚ := mkRat (a.num * b.den - b.num * a.den) (a.den * b.den)

/-- Rational multiplication written through mkRat; proved equal to
ordinary rational multiplication below. -/
def qmul (a b : ℚ) : ℚ := mkRat (a.num * b.num) (a.den * b.den)

/-- Rational inverse written through divInt; proved equal to the
ordinary rational inverse below. -/
def qinv (a : ℚ) : ℚ := Rat.divInt a.den a.num

/-- Rational division written through qmul and qinv; proved equal to
ordinary rational division below. -/
def qdiv (a b : ℚ) : ℚ := qmul a (qinv b)

/-- Sum of a list of rationals through qadd; proved equal to List.sum
below. -/
def qsum (l : List ℚ) : ℚ := l.foldr qadd 0

lemma qadd_eq (a b : ℚ) : qadd a b = a + b := by
  have ha : ((a.den : ℚ)) ≠ 0 := by
    exact_mod_cast a.den_nz
  have hb : ((b.den : ℚ)) ≠ 0 := by
    exact_mod_cast b.den_nz
  rw [qadd, Rat.mkRat_eq_divInt, Rat.divInt_eq_div]
  conv_rhs => rw [← Rat.num_div_den a, ← Rat.num_div_den b]
  push_cast
  field_simp

lemma qsub_eq (a b : ℚ) : qsub a b = a - b := by
  have ha : ((a.den : ℚ)) ≠ 0 := by
    exact_mod_cast a.den_nz
  have hb : ((b.den : ℚ)) ≠ 0 := by
    exact_mod_cast b.den_nz
  rw [qsub, Rat.mkRat_eq_divInt, Rat.divInt_eq_div]
  conv_rhs => rw [← Rat.num_div_den a, ← Rat.num_div_den b]
  push_cast
  field_simp
  ring

lemma qmul_eq (a b : ℚ) : qmul a b = a * b := by
  have ha : ((a.den : ℚ)) ≠ 0 := by
    exact_mod_cast a.den_nz
  have hb : ((b.den : ℚ)) ≠ 0 := by
    exact_mod_cast b.den_nz
  rw [qmul, Rat.mkRat_eq_divInt, Rat.divInt_eq_div]
  conv_rhs => rw [← Rat.num_div_den a, ← Rat.num_div_den b]
  push_cast
  field_simp

lemma qinv_eq (a : ℚ) : qinv a = a⁻¹ := (Rat.inv_def a).symm

lemma qdiv_eq (a b : ℚ) : qdiv a b = a / b := by
  rw [qdiv, qmul_eq, qinv_eq, div_eq_mul_inv]

lemma qsum_eq (l : List ℚ) : qsum l = l.sum := by
  rw [qsum]
  induction l with
  | nil => rfl
  | cons x xs ih => rw [List.foldr_cons, ih, List.sum_cons, qadd_eq]

/-- Modelled from the spec: the price of hour i of the target day, none
when the hour is absent or unknown. -/
def priceAt (prices : PriceSeries) (i : ℕ) : Option ℚ :=
  (prices.get? i).bind id

/-- Modelled from the spec: the eligible (hour, price) pairs of the
target day, unknown-price hours filtered out. -/
def validHours (prices : PriceSeries) : List (ℕ × ℚ) :=
  (List.range 24).filterMap fun i => (priceAt prices i).map fun p => (i, p)

/-- Modelled from the spec: ranking order for charge selection, price
ascending, ties broken toward the earlier hour. -/
def chargeRel (a b : ℕ × ℚ) : Prop :=
  a.2 < b.2 ∨ (a.2 = b.2 ∧ a.1 ≤ b.1)

/-- Modelled from the spec: ranking order for discharge selection, price
descending, ties broken toward the later hour. -/
def dischargeRel (a b : ℕ × ℚ) : Prop :=
  b.2 < a.2 ∨ (a.2 = b.2 ∧ b.1 ≤ a.1)

instance : DecidableRel chargeRel := fun a b =>
  inferInstanceAs (Decidable (a.2 < b.2 ∨ (a.2 = b.2 ∧ a.1 ≤ b.1)))

instance : DecidableRel dischargeRel := fun a b =>
  inferInstanceAs (Decidable (b.2 < a.2 ∨ (a.2 = b.2 ∧ b.1 ≤ a.1)))

instance : IsTotal (ℕ × ℚ) chargeRel := by
  constructor
  intro a b
  rcases lt_trichotomy a.2 b.2 with h | h | h
  · exact Or.inl (Or.inl h)
  · rcases Nat.le_total a.1 b.1 with h1 | h1
    · exact Or.inl (Or.inr ⟨h, h1⟩)
    · exact Or.inr (Or.inr ⟨h.symm, h1⟩)
  · exact Or.inr (Or.inl h)

instance : IsTrans (ℕ × ℚ) chargeRel := by
  constructor
  intro a b c hab hbc
  rcases hab with h1 | ⟨e1, l1⟩
  · rcases hbc with h2 | ⟨e2, _⟩
    · exact Or.inl (lt_trans h1 h2)
    · exact Or.inl (e2 ▸ h1)
  · rcases hbc with h2 | ⟨e2, l2⟩
    · exact Or.inl (e1 ▸ h2)
    · exact Or.inr ⟨e1.trans e2, le_trans l1 l2⟩

instance : IsTotal (ℕ × ℚ) dischargeRel := by
  constructor
  intro a b
  rcases lt_trichotomy a.2 b.2 with h | h | h
  · exact Or.inr (Or.inl h)
  · rcases Nat.le_total a.1 b.1 with h1 | h1
    · exact Or.inr (Or.inr ⟨h.symm, h1⟩)
    · exact Or.inl (Or.inr ⟨h, h1⟩)
  · exact Or.inl (Or.inl h)

instance : IsTrans (ℕ × ℚ) dischargeRel := by
  constructor
  intro a b c hab hbc
  rcases hab with h1 | ⟨e1, l1⟩
  · rcases hbc with h2 | ⟨e2, _⟩
    · exact Or.inl (lt_trans h2 h1)
    · exact Or.inl (e2 ▸ h1)
  · rcases hbc with h2 | ⟨e2, l2⟩
    · exact Or.inl (e1 ▸ h2)
    · exact Or.inr ⟨e1.trans e2, le_trans l2 l1⟩

/-- Modelled from the spec: greedy selection walking the ranked hours in
order, taking an hour while the projected SOC stays feasible and the
target count is not reached, and stopping at the first infeasible hour. -/
def greedySelect (feasible : ℚ → Bool) (step : ℚ → ℚ) :
    ℕ → ℚ → List (ℕ × ℚ) → List (ℕ × ℚ)
  | 0, _, _ => []
  | t + 1, soc, l =>
    match l with
    | [] => []
    | e :: rest =>
      if feasible (step soc) then e :: greedySelect feasible step t (step soc) rest
      else []

/-- Modelled from the spec: SOC percentage gained by charging for one
hour at chargePowerW, chargePowerW / 1000 / capacityKWh * 100. -/
def chargeDeltaPct (b : BatteryModel) : ℚ :=
  qmul (qdiv (qdiv b.chargePowerW 1000) b.capacityKWh) 100

/-- Modelled from the spec: SOC percentage lost by discharging for one
hour at maxDischargePowerW, maxDischargePowerW / 1000 / capacityKWh *
100. -/
def dischargeDeltaPct (b : BatteryModel) : ℚ :=
  qmul (qdiv (qdiv b.maxDischargePowerW 1000) b.capacityKWh) 100

/-- Modelled from the spec: charge candidates, the lowest-price eligible
hours (earlier hour first on ties) kept while the projected SOC stays at
or below maxSocPct, at most chargeHoursTarget of them. -/
def chargeSelection (valid : List (ℕ × ℚ)) (b : BatteryModel) (soc : ℚ) :
    List (ℕ × ℚ) :=
  greedySelect (fun s => decide (s ≤ b.maxSocPct)) (fun s => qadd s (chargeDeltaPct b))
    b.chargeHoursTarget soc (List.insertionSort chargeRel valid)

/-- Modelled from the spec: the hours selected for charging. -/
def chargeHoursOf (valid : List (ℕ × ℚ)) (b : BatteryModel) (soc : ℚ) : List ℕ :=
  (chargeSelection valid b soc).map Prod.fst

/-- Modelled from the spec: the eligible hours remaining after charge
selection. -/
def remainingAfterCharge (valid : List (ℕ × ℚ)) (b : BatteryModel) (soc : ℚ) :
    List (ℕ × ℚ) :=
  valid.filter fun e => decide (e.1 ∉ chargeHoursOf valid b soc)

/-- Modelled from the spec: the projected SOC after the selected charge
hours, one chargeDeltaPct added per selected hour. -/
def dischargeStartSoc (valid : List (ℕ × ℚ)) (b : BatteryModel) (soc : ℚ) : ℚ :=
  (chargeSelection valid b soc).foldl (fun s _ => qadd s (chargeDeltaPct b)) soc

/-- Modelled from the spec: discharge candidates, the highest-price
remaining hours (later hour first on ties) kept while the projected SOC
stays at or above minSocPct, at most dischargeHoursTarget of them. -/
def dischargeSelection (valid : List (ℕ × ℚ)) (b : BatteryModel) (soc : ℚ) :
    List (ℕ × ℚ) :=
  greedySelect (fun s => decide (b.minSocPct ≤ s)) (fun s => qsub s (dischargeDeltaPct b))
    b.dischargeHoursTarget (dischargeStartSoc valid b soc)
    (List.insertionSort dischargeRel (remainingAfterCharge valid b soc))

/-- Modelled from the spec: the hours selected for discharging. -/
def dischargeHoursOf (valid : List (ℕ × ℚ)) (b : BatteryModel) (soc : ℚ) : List ℕ :=
  (dischargeSelection valid b soc).map Prod.fst

/-- Modelled from the spec: energy drawn from the grid during one charge
hour, chargePowerW / 1000 kWh. -/
def chargeEnergyPerHour (b : BatteryModel) : ℚ :=
  qdiv b.chargePowerW 1000

/-- Modelled from the spec: effective energy delivered during one
discharge hour, maxDischargePowerW / 1000 * (efficiency / 100) kWh, the
round-trip efficiency loss realized at discharge. -/
def deliveredEnergyPerHour (b : BatteryModel) : ℚ :=
  qmul (qdiv b.maxDischargePowerW 1000) (qdiv b.roundTripEfficiencyPct 100)

/-- Modelled from the spec: the all-Idle Plan with zero expected
benefit, produced when no arbitrage is possible. -/
def allIdlePlan : Plan :=
  { actions := (List.range 24).map fun h => { hour := h, action := PlanAction.idle }
    chargeHours := []
    dischargeHours := []
    expectedBenefit := 0 }

/-- Modelled from the spec: checks whether every eligible hour carries
the same price (no arbitrage opportunity). -/
def allSamePrice (l : List (ℕ × ℚ)) : Bool :=
  match l with
  | [] => true
  | e :: rest => rest.all fun x => decide (x.2 = e.2)

/-- Modelled from the spec: the Plan assembled in the main greedy branch
from the eligible hours. -/
def buildPlan (valid : List (ℕ × ℚ)) (b : BatteryModel) (soc : ℚ) : Plan :=
  { actions := (List.range 24).map fun h =>
      { hour := h
        action :=
          if h ∈ chargeHoursOf valid b soc then PlanAction.charge
          else if h ∈ dischargeHoursOf valid b soc then PlanAction.discharge
          else PlanAction.idle }
    chargeHours := chargeHoursOf valid b soc
    dischargeHours := dischargeHoursOf valid b soc
    expectedBenefit :=
      qsub (qsum ((dischargeSelection valid b soc).map fun e =>
          qmul e.2 (deliveredEnergyPerHour b)))
        (qsum ((chargeSelection valid b soc).map fun e =>
          qmul e.2 (chargeEnergyPerHour b))) }

/-- Modelled from the spec: the Planner. Fails with InsufficientDataError
when fewer than 24 valid hourly prices are available for the target day;
returns the all-Idle Plan when the usable SOC window is zero or all
prices are equal (both explicit edge cases of the design document); and
otherwise runs the greedy charge/discharge selection. -/
def plan (prices : PriceSeries) (battery : BatteryModel) (currentSocPct : ℚ) :
    Except PlannerError Plan :=
  if (validHours prices).length < 24 then
    Except.error PlannerError.insufficientData
  else if battery.minSocPct = battery.maxSocPct then
    Except.ok allIdlePlan
  else if allSamePrice (validHours prices) then
    Except.ok allIdlePlan
  else
    Except.ok (buildPlan (validHours prices) battery currentSocPct)

/-- Modelled from the spec: the ExecutionState status values. -/
inductive ExecStatus where
  | optimizing
  | ready
  | executing
  | error
deriving DecidableEq

/-- Modelled from the spec: the controller-level state holding the
currently installed Plan (exactly one Plan is current at any time) and
the execution status. -/
structure ControllerState where
  currentPlan : Option Plan
  status : ExecStatus
deriving DecidableEq

/-- Modelled from the spec: one optimization run. On success the new
Plan replaces the prior one atomically and the state becomes Ready; on
InsufficientDataError the prior Plan, if any, remains current and the
ExecutionState keeps using it unchanged. -/
def runOptimization (st : ControllerState) (prices : PriceSeries)
    (battery : BatteryModel) (currentSocPct : ℚ) : ControllerState :=
  match plan prices battery currentSocPct with
  | Except.ok p => { currentPlan := some p, status := ExecStatus.ready }
  | Except.error _ => st

/-- Modelled from the spec: the actuator command vocabulary. -/
inductive ActuatorCommand where
  | forceCharge
  | forceDischarge
  | clearOverride
deriving DecidableEq

/-- Modelled from the spec: the actuator command corresponding to an
hourly action. -/
def commandFor : PlanAction → ActuatorCommand
  | PlanAction.charge => ActuatorCommand.forceCharge
  | PlanAction.discharge => ActuatorCommand.forceDischarge
  | PlanAction.idle => ActuatorCommand.clearOverride

/-- Modelled from the spec: the HourlyAction the executor reads from the
current Plan for a given hour. -/
def actionAt (p : Plan) (h : ℕ) : PlanAction :=
  ((p.actions.get? h).map HourlyAction.action).getD PlanAction.idle

/-- Modelled from the spec: the per-hour executor state. -/
structure ExecutorState where
  status : ExecStatus
  currentAction : PlanAction
deriving DecidableEq

/-- Modelled from the spec: state update after attempting one hour's
command; a failure is caught per-command and surfaces as the Error
status. -/
def execStep (st : ExecutorState) (a : PlanAction) (ok : Bool) : ExecutorState :=
  if ok then { status := ExecStatus.executing, currentAction := a }
  else { status := ExecStatus.error, currentAction := st.currentAction }

/-- Modelled from the spec: the list of actuator commands the executor
attempts over the given hour boundaries; at each boundary it reads the
current hour's action from the Plan and attempts it, whatever the
outcome of the previous hours was. -/
def attemptedCommands (p : Plan) (outcomes : ℕ → Bool) :
    List ℕ → ExecutorState → List ActuatorCommand
  | [], _ => []
  | h :: rest, st =>
    commandFor (actionAt p h) ::
      attemptedCommands p outcomes rest (execStep st (actionAt p h) (outcomes h))

/-- Modelled from the spec: the commands attempted over a full day of 24
hour boundaries. -/
def execDay (p : Plan) (outcomes : ℕ → Bool) (st : ExecutorState) :
    List ActuatorCommand :=
  attemptedCommands p outcomes (List.range 24) st

/-! ### The dashboard card, embedded from
custom_components/smarthomeenergy/www/smarthomeenergy-card.js -/

/-- One entry of the hourly_summary attribute: an hour number and an
optional action character, as consumed by the card's hour-grid loop. -/
structure HourEntry where
  h : Int
  a : Option String
deriving DecidableEq

/-- The attributes of the dagsplan sensor read by the card. -/
structure PlanAttributes where
  charge_hours : Option (List Int)
  discharge_hours : Option (List Int)
  hourly_summary : Option (List HourEntry)
deriving DecidableEq

/-- A Home Assistant entity state object as read by the card. -/
structure HassEntity where
  state : String
  attributes : PlanAttributes
deriving DecidableEq

/-- The five smarthomeenergy sensor entities the card looks up in
hass.states; any of them may be absent. -/
structure HassStates where
  smarthomeenergy_status : Option HassEntity
  smarthomeenergy_handling : Option HassEntity
  smarthomeenergy_dagsplan : Option HassEntity
  smarthomeenergy_forventet_gevinst : Option HassEntity
  smarthomeenergy_naeste_handling : Option HassEntity

/-- JavaScript defaulting idiom for strings: the value of
x || d where x is an optional string, undefined and the empty string
being the falsy cases. -/
def jsOrString (s : Option String) (d : String) : String :=
  match s with
  | none => d
  | some v => if v = "" then d else v

/-- Classification of one hour-grid cell. -/
inductive CellClass where
  | charge
  | discharge
  | idle
deriving DecidableEq

/-- One rendered hour-grid cell. -/
structure HourCell where
  index : ℕ
  cls : CellClass
  isCurrent : Bool
deriving DecidableEq

/-- The hourly_summary entry for hour i, defaulting to an idle entry
when no entry has h equal to i (hourlyData.find followed by the
fallback object with a set to the idle character). -/
def findHourEntry (hourlyData : List HourEntry) (i : ℕ) : HourEntry :=
  (hourlyData.find? fun e => decide (e.h = (i : Int))).getD
    { h := (i : Int), a := some "i" }

/-- The action character of hour i, the entry's a field defaulted to the
idle character via the JavaScript || idiom. -/
def actionCharAt (hourlyData : List HourEntry) (i : ℕ) : String :=
  jsOrString (findHourEntry hourlyData i).a "i"

/-- The card's classification of an action character: the charge
character gives a charge cell, the discharge character a discharge cell,
everything else an idle cell. -/
def classifyChar (c : String) : CellClass :=
  if c = "c" then CellClass.charge
  else if c = "d" then CellClass.discharge
  else CellClass.idle

/-- The 24-cell hour grid the card renders: cell i is classified from
the hourly_summary entry for hour i and marked current exactly when i is
the current hour. -/
def hourGrid (hourlyData : List HourEntry) (currentHour : ℕ) : List HourCell :=
  (List.range 24).map fun i =>
    { index := i
      cls := classifyChar (actionCharAt hourlyData i)
      isCurrent := decide (i = currentHour) }

/-- The data the card's render method computes from hass.states. -/
structure CardData where
  status : String
  handling : String
  planSummary : String
  benefit : String
  nextAction : String
  chargeHours : List Int
  dischargeHours : List Int
  grid : List HourCell

/-- The card's render method: looks up the five sensor entities,
substitutes the JavaScript || defaults for missing ones, and builds the
hour grid. -/
def render (hass : HassStates) (currentHour : ℕ) : CardData :=
  { status := jsOrString (hass.smarthomeenergy_status.map HassEntity.state) "Ukendt"
    handling := jsOrString (hass.smarthomeenergy_handling.map HassEntity.state) "Idle"
    planSummary := jsOrString (hass.smarthomeenergy_dagsplan.map HassEntity.state) "Ingen plan"
    benefit := jsOrString (hass.smarthomeenergy_forventet_gevinst.map HassEntity.state) "0"
    nextAction := jsOrString (hass.smarthomeenergy_naeste_handling.map HassEntity.state) "Ingen"
    chargeHours :=
      (hass.smarthomeenergy_dagsplan.bind fun e => e.attributes.charge_hours).getD []
    dischargeHours :=
      (hass.smarthomeenergy_dagsplan.bind fun e => e.attributes.discharge_hours).getD []
    grid :=
      hourGrid
        ((hass.smarthomeenergy_dagsplan.bind fun e => e.attributes.hourly_summary).getD [])
        currentHour }

/-- A service call issued through hass.callService. -/
structure ServiceCall where
  domain : String
  service : String
  payload : List (String × String)
deriving DecidableEq

/-- The service calls made by the optimize button's click handler: a
single call to smarthomeenergy.optimize with an empty payload. -/
def optimizeClickCalls : List ServiceCall :=
  [{ domain := "smarthomeenergy", service := "optimize", payload := [] }]

/-! ### Lemmas about the planner -/

lemma mem_validHours {ps : PriceSeries} {i : ℕ} {p : ℚ} :
    (i, p) ∈ validHours ps ↔ i < 24 ∧ priceAt ps i = some p := by
  constructor
  · intro h
    rw [validHours, List.mem_filterMap] at h
    obtain ⟨a, ha, hfa⟩ := h
    rw [Option.map_eq_some'] at hfa
    obtain ⟨q, hq, heq⟩ := hfa
    cases heq
    exact ⟨List.mem_range.mp ha, hq⟩
  · intro h
    rw [validHours, List.mem_filterMap]
    exact ⟨i, List.mem_range.mpr h.1, by rw [h.2]; rfl⟩

lemma price_eq_of_mem_validHours {ps : PriceSeries} {i : ℕ} {p q : ℚ}
    (hp : (i, p) ∈ validHours ps) (hq : (i, q) ∈ validHours ps) : p = q := by
  have h1 := (mem_validHours.mp hp).2
  have h2 := (mem_validHours.mp hq).2
  rw [h1] at h2
  exact Option.some.inj h2

lemma greedySelect_length_le (f : ℚ → Bool) (st : ℚ → ℚ) :
    ∀ (l : List (ℕ × ℚ)) (t : ℕ) (soc : ℚ), (greedySelect f st t soc l).length ≤ t := by
  intro l
  induction l with
  | nil => intro t soc; cases t <;> simp [greedySelect]
  | cons e rest ih =>
    intro t soc
    cases t with
    | zero => simp [greedySelect]
    | succ t =>
      by_cases h : f (st soc) = true
      · simp only [greedySelect, h, if_true, List.length_cons]
        exact Nat.succ_le_succ (ih t (st soc))
      · simp [greedySelect, h]

lemma greedySelect_eq_take (f : ℚ → Bool) (st : ℚ → ℚ) :
    ∀ (l : List (ℕ × ℚ)) (t : ℕ) (soc : ℚ),
      ∃ n, greedySelect f st t soc l = l.take n := by
  intro l
  induction l with
  | nil =>
    intro t soc
    exact ⟨0, by cases t <;> simp [greedySelect]⟩
  | cons e rest ih =>
    intro t soc
    cases t with
    | zero => exact ⟨0, by simp [greedySelect]⟩
    | succ t =>
      by_cases h : f (st soc) = true
      · obtain ⟨n, hn⟩ := ih t (st soc)
        exact ⟨n + 1, by simp only [greedySelect, h, if_true, List.take_succ_cons, hn]⟩
      · exact ⟨0, by simp [greedySelect, h]⟩

lemma mem_of_mem_greedySelect {f : ℚ → Bool} {st : ℚ → ℚ}
    {l : List (ℕ × ℚ)} {t : ℕ} {soc : ℚ} {e : ℕ × ℚ}
    (h : e ∈ greedySelect f st t soc l) : e ∈ l := by
  obtain ⟨n, hn⟩ := greedySelect_eq_take f st l t soc
  rw [hn] at h
  exact List.take_subset n l h

lemma mem_take_of_pairwise {α : Type _} {R : α → α → Prop} :
    ∀ {l : List α} {n : ℕ} {a b : α}, l.Pairwise R → b ∈ l.take n → a ∈ l →
      ¬ R b a → a ∈ l.take n := by
  intro l
  induction l with
  | nil => intro n a b _ hb _ _; simp at hb
  | cons x xs ih =>
    intro n a b hp hb ha hr
    cases n with
    | zero => simp at hb
    | succ n =>
      rw [List.take_succ_cons] at hb ⊢
      rcases List.mem_cons.mp hb with rfl | hb'
      · rcases List.mem_cons.mp ha with rfl | ha'
        · exact List.mem_cons_self _ _
        · exact absurd ((List.pairwise_cons.mp hp).1 a ha') hr
      · rcases List.mem_cons.mp ha with rfl | ha'
        · exact List.mem_cons_self _ _
        · exact List.mem_cons_of_mem _ (ih (List.pairwise_cons.mp hp).2 hb' ha' hr)

lemma chargeSelection_subset {valid : List (ℕ × ℚ)} {b : BatteryModel} {soc : ℚ}
    {e : ℕ × ℚ} (h : e ∈ chargeSelection valid b soc) : e ∈ valid :=
  (List.perm_insertionSort chargeRel valid).mem_iff.mp (mem_of_mem_greedySelect h)

lemma mem_remainingAfterCharge {valid : List (ℕ × ℚ)} {b : BatteryModel} {soc : ℚ}
    {e : ℕ × ℚ} :
    e ∈ remainingAfterCharge valid b soc ↔
      e ∈ valid ∧ e.1 ∉ chargeHoursOf valid b soc := by
  rw [remainingAfterCharge, List.mem_filter, decide_eq_true_iff]

lemma dischargeSelection_subset {valid : List (ℕ × ℚ)} {b : BatteryModel} {soc : ℚ}
    {e : ℕ × ℚ} (h : e ∈ dischargeSelection valid b soc) :
    e ∈ remainingAfterCharge valid b soc :=
  (List.perm_insertionSort dischargeRel (remainingAfterCharge valid b soc)).mem_iff.mp
    (mem_of_mem_greedySelect h)

lemma not_mem_chargeHours_of_mem_dischargeHours {valid : List (ℕ × ℚ)}
    {b : BatteryModel} {soc : ℚ} {h : ℕ}
    (hd : h ∈ dischargeHoursOf valid b soc) : h ∉ chargeHoursOf valid b soc := by
  rw [dischargeHoursOf, List.mem_map] at hd
  obtain ⟨e, he, rfl⟩ := hd
  exact (mem_remainingAfterCharge.mp (dischargeSelection_subset he)).2

lemma filterMap_eq_map_of {α β : Type _} {f : α → Option β} {g : α → β} :
    ∀ {l : List α}, (∀ a ∈ l, f a = some (g a)) → l.filterMap f = l.map g := by
  intro l
  induction l with
  | nil => intro _; rfl
  | cons x xs ih =>
    intro h
    rw [List.filterMap_cons, h x (List.mem_cons_self x xs), List.map_cons,
      ih fun a ha => h a (List.mem_cons_of_mem x ha)]

lemma allSamePrice_of {l : List (ℕ × ℚ)} {c : ℚ} (h : ∀ e ∈ l, e.2 = c) :
    allSamePrice l = true := by
  cases l with
  | nil => rfl
  | cons e rest =>
    rw [allSamePrice, List.all_eq_true]
    intro x hx
    rw [decide_eq_true_iff, h x (List.mem_cons_of_mem e hx),
      h e (List.mem_cons_self e rest)]

lemma attemptedCommands_eq_map (p : Plan) (outcomes : ℕ → Bool) :
    ∀ (hs : List ℕ) (st : ExecutorState),
      attemptedCommands p outcomes hs st = hs.map fun h => commandFor (actionAt p h) := by
  intro hs
  induction hs with
  | nil => intro st; rfl
  | cons h rest ih =>
    intro st
    rw [attemptedCommands, List.map_cons, ih]

lemma allIdlePlan_actions_idle : ∀ a ∈ allIdlePlan.actions, a.action = PlanAction.idle := by
  intro a ha
  simp only [allIdlePlan, List.mem_map, List.mem_range] at ha
  obtain ⟨h, _, rfl⟩ := ha
  rfl

/-! ### Claim theorems for the planner -/

/-- Claim C1: for every PriceSeries with at least 24 valid hourly prices,
every BatteryModel and every current SOC, plan returns a Plan with
exactly 24 HourlyAction entries, disjoint charge and discharge hour
sets, the charge set no larger than chargeHoursTarget and the discharge
set no larger than dischargeHoursTarget. -/
theorem plan_shape (prices : PriceSeries) (battery : BatteryModel) (soc : ℚ)
    (h24 : 24 ≤ (validHours prices).length) :
    ∃ P, plan prices battery soc = Except.ok P ∧
      P.actions.length = 24 ∧
      (∀ h ∈ P.chargeHours, h ∉ P.dischargeHours) ∧
      P.chargeHours.length ≤ battery.chargeHoursTarget ∧
      P.dischargeHours.length ≤ battery.dischargeHoursTarget := by
  have hlt : ¬ (validHours prices).length < 24 := not_lt.mpr h24
  rw [plan, if_neg hlt]
  by_cases hmm : battery.minSocPct = battery.maxSocPct
  · rw [if_pos hmm]
    refine ⟨allIdlePlan, rfl, ?_, ?_, ?_, ?_⟩
    · simp [allIdlePlan]
    · intro h hh
      simp [allIdlePlan] at hh
    · simp [allIdlePlan]
    · simp [allIdlePlan]
  · rw [if_neg hmm]
    by_cases hsame : allSamePrice (validHours prices) = true
    · rw [if_pos hsame]
      refine ⟨allIdlePlan, rfl, ?_, ?_, ?_, ?_⟩
      · simp [allIdlePlan]
      · intro h hh
        simp [allIdlePlan] at hh
      · simp [allIdlePlan]
      · simp [allIdlePlan]
    · rw [if_neg hsame]
      refine ⟨buildPlan (validHours prices) battery soc, rfl, ?_, ?_, ?_, ?_⟩
      · show ((List.range 24).map _).length = 24
        rw [List.length_map, List.length_range]
      · intro h hc hd
        exact not_mem_chargeHours_of_mem_dischargeHours hd hc
      · show (chargeHoursOf _ _ _).length ≤ _
        rw [chargeHoursOf, List.length_map, chargeSelection]
        exact greedySelect_length_le _ _ _ _ _
      · show (dischargeHoursOf _ _ _).length ≤ _
        rw [dischargeHoursOf, List.length_map, dischargeSelection]
        exact greedySelect_length_le _ _ _ _ _

/-- Claim C2: plan fails with InsufficientDataError exactly when fewer
than 24 valid hourly prices are available for the target day, and on
that failure the previously installed Plan remains the current Plan
unchanged. -/
theorem plan_insufficient_data (prices : PriceSeries) (battery : BatteryModel)
    (soc : ℚ) (st : ControllerState) :
    (plan prices battery soc = Except.error PlannerError.insufficientData ↔
      (validHours prices).length < 24) ∧
    (plan prices battery soc = Except.error PlannerError.insufficientData →
      (runOptimization st prices battery soc).currentPlan = st.currentPlan) := by
  constructor
  · constructor
    · intro h
      by_contra h24
      rw [plan, if_neg h24] at h
      by_cases hmm : battery.minSocPct = battery.maxSocPct
      · rw [if_pos hmm] at h
        exact Except.noConfusion h
      · rw [if_neg hmm] at h
        by_cases hsame : allSamePrice (validHours prices) = true
        · rw [if_pos hsame] at h
          exact Except.noConfusion h
        · rw [if_neg hsame] at h
          exact Except.noConfusion h
    · intro h
      rw [plan, if_pos h]
  · intro h
    simp only [runOptimization, h]

/-- Claim C3: for every PriceSeries in which all 24 hourly prices are
equal, and every BatteryModel and current SOC, plan returns a Plan whose
24 actions are all Idle and whose expectedBenefit is 0. -/
theorem plan_all_equal_prices (prices : PriceSeries) (battery : BatteryModel)
    (soc : ℚ) (c : ℚ) (h : ∀ i < 24, priceAt prices i = some c) :
    ∃ P, plan prices battery soc = Except.ok P ∧ P.actions.length = 24 ∧
      (∀ a ∈ P.actions, a.action = PlanAction.idle) ∧ P.expectedBenefit = 0 := by
  have hval : validHours prices = (List.range 24).map fun i => (i, c) := by
    rw [validHours]
    apply filterMap_eq_map_of
    intro a ha
    rw [h a (List.mem_range.mp ha)]
    rfl
  have hlen : ¬ (validHours prices).length < 24 := by
    rw [hval, List.length_map, List.length_range]
    omega
  have hsame : allSamePrice (validHours prices) = true := by
    apply allSamePrice_of (c := c)
    intro e he
    have he' : (e.1, e.2) ∈ validHours prices := by rwa [Prod.mk.eta]
    obtain ⟨i24, hpi⟩ := mem_validHours.mp he'
    rw [h e.1 i24] at hpi
    exact (Option.some.inj hpi).symm
  have hlen24 : allIdlePlan.actions.length = 24 := by
    simp [allIdlePlan]
  rw [plan, if_neg hlen]
  by_cases hmm : battery.minSocPct = battery.maxSocPct
  · rw [if_pos hmm]
    exact ⟨allIdlePlan, rfl, hlen24, allIdlePlan_actions_idle, rfl⟩
  · rw [if_neg hmm, if_pos hsame]
    exact ⟨allIdlePlan, rfl, hlen24, allIdlePlan_actions_idle, rfl⟩

/-- Claim C4: for every BatteryModel whose minSocPct equals its
maxSocPct (zero usable SOC window), whenever plan returns a Plan it is
the all-Idle Plan with expectedBenefit 0, for every PriceSeries and
every current SOC. -/
theorem plan_zero_soc_window (prices : PriceSeries) (battery : BatteryModel)
    (soc : ℚ) (hw : battery.minSocPct = battery.maxSocPct) (P : Plan)
    (hP : plan prices battery soc = Except.ok P) :
    (∀ a ∈ P.actions, a.action = PlanAction.idle) ∧ P.expectedBenefit = 0 := by
  rw [plan] at hP
  by_cases h24 : (validHours prices).length < 24
  · rw [if_pos h24] at hP
    exact Except.noConfusion hP
  · rw [if_neg h24, if_pos hw] at hP
    have hPe : allIdlePlan = P := Except.ok.inj hP
    subst hPe
    exact ⟨allIdlePlan_actions_idle, rfl⟩

/-- Claim C5: plan is deterministic; two calls with identical
PriceSeries, BatteryModel and current SOC inputs produce identical
Plans. -/
theorem plan_deterministic (prices : PriceSeries) (battery : BatteryModel)
    (soc : ℚ) : plan prices battery soc = plan prices battery soc := rfl

/-- Claim C7: an actuator command failure at hour H does not prevent the
Plan's action for hour H+1 from being attempted at the H+1 boundary; the
command attempted there is exactly the one derived from the Plan,
whatever the outcome at hour H. -/
theorem executor_error_isolation (p : Plan) (outcomes : ℕ → Bool)
    (st : ExecutorState) (H : ℕ) (hH : H + 1 < 24)
    (_hfail : outcomes H = false) :
    (execDay p outcomes st)[H + 1]? =
      some (commandFor (actionAt p (H + 1))) := by
  rw [execDay, attemptedCommands_eq_map, List.getElem?_map, List.getElem?_range hH]
  rfl

/-- Claim C6: in the greedy selection, whenever two eligible hours carry
equal prices the earlier hour is preferred for charge selection and the
later hour for discharge selection: if the later of two equal-priced
valid hours is charged then so is the earlier, and if the earlier of two
equal-priced hours still eligible after charge selection is discharged
then so is the later. -/
theorem plan_tie_break (prices : PriceSeries) (battery : BatteryModel) (soc : ℚ)
    (P : Plan) (i j : ℕ) (p : ℚ)
    (hP : plan prices battery soc = Except.ok P)
    (hi : (i, p) ∈ validHours prices) (hj : (j, p) ∈ validHours prices)
    (hij : i < j) :
    (j ∈ P.chargeHours → i ∈ P.chargeHours) ∧
    (j ∉ P.chargeHours → i ∈ P.dischargeHours → j ∈ P.dischargeHours) := by
  rw [plan] at hP
  by_cases h24 : (validHours prices).length < 24
  · rw [if_pos h24] at hP
    exact Except.noConfusion hP
  rw [if_neg h24] at hP
  by_cases hmm : battery.minSocPct = battery.maxSocPct
  · rw [if_pos hmm] at hP
    have hPe : allIdlePlan = P := Except.ok.inj hP
    subst hPe
    constructor
    · intro hjc
      exact absurd hjc (List.not_mem_nil j)
    · intro _ hic
      exact absurd hic (List.not_mem_nil i)
  rw [if_neg hmm] at hP
  by_cases hsame : allSamePrice (validHours prices) = true
  · rw [if_pos hsame] at hP
    have hPe : allIdlePlan = P := Except.ok.inj hP
    subst hPe
    constructor
    · intro hjc
      exact absurd hjc (List.not_mem_nil j)
    · intro _ hic
      exact absurd hic (List.not_mem_nil i)
  rw [if_neg hsame] at hP
  have hPe : buildPlan (validHours prices) battery soc = P := Except.ok.inj hP
  subst hPe
  constructor
  · intro hjc
    have hjc' : j ∈ chargeHoursOf (validHours prices) battery soc := hjc
    rw [chargeHoursOf, List.mem_map] at hjc'
    obtain ⟨ej, hej, hfst⟩ := hjc'
    obtain ⟨j', q⟩ := ej
    dsimp only at hfst
    subst hfst
    have hjv : (j', q) ∈ validHours prices := chargeSelection_subset hej
    have hq : p = q := price_eq_of_mem_validHours hj hjv
    subst hq
    rw [chargeSelection] at hej
    obtain ⟨n, hn⟩ := greedySelect_eq_take (fun s => decide (s ≤ battery.maxSocPct))
      (fun s => qadd s (chargeDeltaPct battery))
      (List.insertionSort chargeRel (validHours prices)) battery.chargeHoursTarget soc
    rw [hn] at hej
    have hpair : (List.insertionSort chargeRel (validHours prices)).Pairwise chargeRel :=
      List.sorted_insertionSort chargeRel (validHours prices)
    have hmi : (i, p) ∈ List.insertionSort chargeRel (validHours prices) :=
      (List.perm_insertionSort chargeRel (validHours prices)).mem_iff.mpr hi
    have hnr : ¬ chargeRel (j', p) (i, p) := by
      intro hc
      simp only [chargeRel] at hc
      rcases hc with hlt | ⟨_, hle⟩
      · exact lt_irrefl p hlt
      · omega
    have hitake := mem_take_of_pairwise hpair hej hmi hnr
    show i ∈ chargeHoursOf (validHours prices) battery soc
    rw [chargeHoursOf, chargeSelection, hn]
    exact List.mem_map_of_mem Prod.fst hitake
  · intro hjnc hic
    have hic' : i ∈ dischargeHoursOf (validHours prices) battery soc := hic
    rw [dischargeHoursOf, List.mem_map] at hic'
    obtain ⟨ei, hei, hfst⟩ := hic'
    obtain ⟨i', q⟩ := ei
    dsimp only at hfst
    subst hfst
    have hiv : (i', q) ∈ validHours prices :=
      (mem_remainingAfterCharge.mp (dischargeSelection_subset hei)).1
    have hq : p = q := price_eq_of_mem_validHours hi hiv
    subst hq
    have hjnc' : j ∉ chargeHoursOf (validHours prices) battery soc := hjnc
    have hjrem : (j, p) ∈ remainingAfterCharge (validHours prices) battery soc :=
      mem_remainingAfterCharge.mpr ⟨hj, hjnc'⟩
    rw [dischargeSelection] at hei
    obtain ⟨m, hm⟩ := greedySelect_eq_take (fun s => decide (battery.minSocPct ≤ s))
      (fun s => qsub s (dischargeDeltaPct battery))
      (List.insertionSort dischargeRel (remainingAfterCharge (validHours prices) battery soc))
      battery.dischargeHoursTarget
      (dischargeStartSoc (validHours prices) battery soc)
    rw [hm] at hei
    have hpair :
        (List.insertionSort dischargeRel
          (remainingAfterCharge (validHours prices) battery soc)).Pairwise dischargeRel :=
      List.sorted_insertionSort dischargeRel _
    have hmj : (j, p) ∈ List.insertionSort dischargeRel
        (remainingAfterCharge (validHours prices) battery soc) :=
      (List.perm_insertionSort dischargeRel _).mem_iff.mpr hjrem
    have hnr : ¬ dischargeRel (i', p) (j, p) := by
      intro hc
      simp only [dischargeRel] at hc
      rcases hc with hlt | ⟨_, hle⟩
      · exact lt_irrefl p hlt
      · omega
    have hjtake := mem_take_of_pairwise hpair hei hmj hnr
    show j ∈ dischargeHoursOf (validHours prices) battery soc
    rw [dischargeHoursOf, dischargeSelection, hm]
    exact List.mem_map_of_mem Prod.fst hjtake

/-! ### Claim theorems for the dashboard card -/

/-- Claim C8: the optimize button's click handler invokes exactly the
service smarthomeenergy.optimize with an empty payload and performs no
other service call. -/
theorem optimize_button_single_call :
    optimizeClickCalls.map (fun c => (c.domain, c.service, c.payload)) =
      [("smarthomeenergy", "optimize", [])] ∧
    optimizeClickCalls.length = 1 :=
  ⟨rfl, rfl⟩

/-- Claim C9: render is total on missing telemetry; for every hass state
object it produces a complete card, substituting Ukendt for a missing
status, Idle for a missing current action, Ingen plan for a missing plan
summary, 0 for a missing benefit, Ingen for a missing next action, and
empty charge and discharge hour lists when the dagsplan entity is
absent. -/
theorem render_missing_telemetry_defaults (hass : HassStates) (cur : ℕ) :
    (hass.smarthomeenergy_status = none → (render hass cur).status = "Ukendt") ∧
    (hass.smarthomeenergy_handling = none → (render hass cur).handling = "Idle") ∧
    (hass.smarthomeenergy_dagsplan = none →
      (render hass cur).planSummary = "Ingen plan" ∧
      (render hass cur).chargeHours = [] ∧
      (render hass cur).dischargeHours = []) ∧
    (hass.smarthomeenergy_forventet_gevinst = none →
      (render hass cur).benefit = "0") ∧
    (hass.smarthomeenergy_naeste_handling = none →
      (render hass cur).nextAction = "Ingen") ∧
    (render hass cur).grid.length = 24 := by
  refine ⟨?_, ?_, ?_, ?_, ?_, ?_⟩
  · intro h
    simp [render, h, jsOrString]
  · intro h
    simp [render, h, jsOrString]
  · intro h
    refine ⟨?_, ?_, ?_⟩ <;> simp [render, h, jsOrString]
  · intro h
    simp [render, h, jsOrString]
  · intro h
    simp [render, h, jsOrString]
  · simp [render, hourGrid]

lemma classifyChar_eq_charge_iff (c : String) :
    classifyChar c = CellClass.charge ↔ c = "c" := by
  rw [classifyChar]
  split_ifs <;> simp_all

lemma classifyChar_eq_discharge_iff (c : String) :
    classifyChar c = CellClass.discharge ↔ c = "d" := by
  rw [classifyChar]
  split_ifs <;> simp_all

lemma classifyChar_eq_idle_iff (c : String) :
    classifyChar c = CellClass.idle ↔ (c ≠ "c" ∧ c ≠ "d") := by
  rw [classifyChar]
  split_ifs <;> simp_all

/-- Claim C10: for every hourly_summary value the rendered hour grid has
exactly 24 cells indexed 0 through 23; each cell is classified charge
exactly when its action character is the charge character, discharge
exactly when it is the discharge character, and idle otherwise; and
exactly the cell whose index equals the current hour carries the current
marker. -/
theorem hour_grid_shape (hd : List HourEntry) (cur : ℕ) (hcur : cur < 24) :
    (hourGrid hd cur).length = 24 ∧
    (∀ i, i < 24 → ∀ cell, (hourGrid hd cur)[i]? = some cell →
      cell.index = i ∧
      (cell.cls = CellClass.charge ↔ actionCharAt hd i = "c") ∧
      (cell.cls = CellClass.discharge ↔ actionCharAt hd i = "d") ∧
      (cell.cls = CellClass.idle ↔
        (actionCharAt hd i ≠ "c" ∧ actionCharAt hd i ≠ "d")) ∧
      (cell.isCurrent = true ↔ i = cur)) ∧
    ((hourGrid hd cur).filter (fun c => c.isCurrent)).length = 1 := by
  refine ⟨by simp [hourGrid], ?_, ?_⟩
  · intro i hi cell hcell
    rw [hourGrid, List.getElem?_map, List.getElem?_range hi, Option.map_some'] at hcell
    have hc := (Option.some.inj hcell).symm
    subst hc
    refine ⟨rfl, classifyChar_eq_charge_iff _, classifyChar_eq_discharge_iff _,
      classifyChar_eq_idle_iff _, ?_⟩
    exact decide_eq_true_iff
  · rw [← List.countP_eq_length_filter, hourGrid, List.countP_map]
    have hcongr : List.countP
        ((fun c => c.isCurrent) ∘ fun i =>
          ({ index := i, cls := classifyChar (actionCharAt hd i),
             isCurrent := decide (i = cur) } : HourCell)) (List.range 24) =
        List.countP (fun a => a == cur) (List.range 24) := by
      apply List.countP_congr
      intro a _
      show (decide (a = cur) = true) ↔ ((a == cur) = true)
      rw [decide_eq_true_iff, beq_iff_eq]
    rw [hcongr]
    exact List.count_eq_one_of_mem (List.nodup_range 24) (List.mem_range.mpr hcur)

/-! ### Concrete sample inputs and witnesses -/

/-- The default battery configuration of the README. -/
def sampleBattery : BatteryModel :=
  { capacityKWh := 10
    chargePowerW := 2500
    maxDischargePowerW := 2500
    roundTripEfficiencyPct := 90
    minSocPct := 10
    maxSocPct := 100
    chargeHoursTarget := 2
    dischargeHoursTarget := 5 }

/-- A battery with a zero usable SOC window. -/
def zeroWindowBattery : BatteryModel :=
  { capacityKWh := 10
    chargePowerW := 2500
    maxDischargePowerW := 2500
    roundTripEfficiencyPct := 90
    minSocPct := 50
    maxSocPct := 50
    chargeHoursTarget := 2
    dischargeHoursTarget := 5 }

/-- 24 distinct valid hourly prices. -/
def samplePrices : PriceSeries :=
  (List.range 24).map fun i => some ((i : ℚ) + 1)

/-- 24 equal valid hourly prices. -/
def flatPrices : PriceSeries :=
  List.replicate 24 (some 3)

/-- Prices with a tie at the cheap end: hours 0 and 1 at price 1, hours
2 and 3 at price 100, all other hours at price 10. -/
def tiePrices : PriceSeries :=
  (List.range 24).map fun i =>
    some (if i ≤ 1 then (1 : ℚ) else if i ≤ 3 then 100 else 10)

/-- A controller state with no installed Plan. -/
def sampleController : ControllerState :=
  { currentPlan := none, status := ExecStatus.ready }

/-- An executor state in the Ready status. -/
def sampleExecutor : ExecutorState :=
  { status := ExecStatus.ready, currentAction := PlanAction.idle }

/-- A hass states object in which all five sensor entities are absent. -/
def emptyHass : HassStates :=
  { smarthomeenergy_status := none
    smarthomeenergy_handling := none
    smarthomeenergy_dagsplan := none
    smarthomeenergy_forventet_gevinst := none
    smarthomeenergy_naeste_handling := none }

/-- Witness for claim C1 at a concrete 24-hour price series. -/
theorem plan_shape_witness :
    24 ≤ (validHours samplePrices).length ∧
    (∃ P, plan samplePrices sampleBattery 50 = Except.ok P ∧
      P.actions.length = 24 ∧
      (∀ h ∈ P.chargeHours, h ∉ P.dischargeHours) ∧
      P.chargeHours.length ≤ sampleBattery.chargeHoursTarget ∧
      P.dischargeHours.length ≤ sampleBattery.dischargeHoursTarget) :=
  ⟨by decide, plan_shape samplePrices sampleBattery 50 (by decide)⟩

/-- Witness for claim C2 at the empty price series. -/
theorem plan_insufficient_data_witness :
    plan [] sampleBattery 50 = Except.error PlannerError.insufficientData ∧
    (runOptimization sampleController [] sampleBattery 50).currentPlan =
      sampleController.currentPlan := by
  have h := plan_insufficient_data [] sampleBattery 50 sampleController
  have he : plan [] sampleBattery 50 = Except.error PlannerError.insufficientData :=
    h.1.mpr (by decide)
  exact ⟨he, h.2 he⟩

/-- Witness for claim C3 at a flat price series. -/
theorem plan_all_equal_prices_witness :
    (∀ i < 24, priceAt flatPrices i = some 3) ∧
    (∃ P, plan flatPrices sampleBattery 50 = Except.ok P ∧ P.actions.length = 24 ∧
      (∀ a ∈ P.actions, a.action = PlanAction.idle) ∧ P.expectedBenefit = 0) :=
  ⟨by decide, plan_all_equal_prices flatPrices sampleBattery 50 3 (by decide)⟩

/-- Witness for claim C4 at a zero-window battery. -/
theorem plan_zero_soc_window_witness :
    (∀ a ∈ allIdlePlan.actions, a.action = PlanAction.idle) ∧
    allIdlePlan.expectedBenefit = 0 :=
  plan_zero_soc_window samplePrices zeroWindowBattery 50 rfl allIdlePlan rfl

/-- Witness for claim C6 at a price series with a tie between hours 0
and 1 at the cheapest price: hour 1 is charged, hence the earlier hour 0
is charged too. -/
theorem plan_tie_break_witness :
    1 ∈ ((plan tiePrices sampleBattery 50).toOption.getD allIdlePlan).chargeHours ∧
    0 ∈ ((plan tiePrices sampleBattery 50).toOption.getD allIdlePlan).chargeHours := by
  have hP : plan tiePrices sampleBattery 50 =
      Except.ok ((plan tiePrices sampleBattery 50).toOption.getD allIdlePlan) := rfl
  have h := plan_tie_break tiePrices sampleBattery 50
    ((plan tiePrices sampleBattery 50).toOption.getD allIdlePlan) 0 1 1 hP
    (by decide) (by decide) (by decide)
  have hm : 1 ∈ ((plan tiePrices sampleBattery 50).toOption.getD allIdlePlan).chargeHours := by
    decide
  exact ⟨hm, h.1 hm⟩

/-- Witness for claim C7: with every actuator command failing, the
command for hour 4 is still the one derived from the Plan. -/
theorem executor_error_isolation_witness :
    ((fun _ => false) : ℕ → Bool) 3 = false ∧
    (execDay allIdlePlan (fun _ => false) sampleExecutor)[3 + 1]? =
      some (commandFor (actionAt allIdlePlan (3 + 1))) :=
  ⟨rfl, executor_error_isolation allIdlePlan (fun _ => false) sampleExecutor 3
    (by decide) rfl⟩

/-- Witness for claim C9 at a hass states object with all five sensor
entities absent. -/
theorem render_missing_telemetry_defaults_witness :
    (render emptyHass 0).status = "Ukendt" ∧
    (render emptyHass 0).handling = "Idle" ∧
    (render emptyHass 0).planSummary = "Ingen plan" ∧
    (render emptyHass 0).chargeHours = [] ∧
    (render emptyHass 0).dischargeHours = [] ∧
    (render emptyHass 0).benefit = "0" ∧
    (render emptyHass 0).nextAction = "Ingen" ∧
    (render emptyHass 0).grid.length = 24 := by
  have h := render_missing_telemetry_defaults emptyHass 0
  exact ⟨h.1 rfl, h.2.1 rfl, (h.2.2.1 rfl).1, (h.2.2.1 rfl).2.1, (h.2.2.1 rfl).2.2,
    h.2.2.2.1 rfl, h.2.2.2.2.1 rfl, h.2.2.2.2.2⟩

/-- Witness for claim C10 at the empty hourly summary with current hour
5. -/
theorem hour_grid_shape_witness :
    (hourGrid [] 5).length = 24 ∧
    ((hourGrid [] 5).filter (fun c => c.isCurrent)).length = 1 ∧
    (({ index := 5, cls := CellClass.idle, isCurrent := true } : HourCell).isCurrent
      = true) := by
  have h := hour_grid_shape [] 5 (by decide)
  have hc : (hourGrid [] 5)[5]? =
      some { index := 5, cls := CellClass.idle, isCurrent := true } := by decide
  exact ⟨h.1, h.2.2, ((h.2.1 5 (by decide) _ hc).2.2.2.2).mpr rfl⟩

end SmartHomeEnergy
